import Mathlib

/-!
Shallow embedding of `internals/transitions.py` (pyhsmm transition
distributions): the weak-limit HDP-HMM transition resampler and its
left-to-right, semi-Markov (HSMM), sticky and concentration-coupled
variants.

Modelling conventions:
* `L` is `state_dim` (the truncation level); matrices are `Fin L → Fin L → ℚ`
  (floating point is modelled by exact rationals).
* Every library random primitive (`np.random.dirichlet`, `stats.gamma.rvs`,
  `np.random.geometric`, `np.random.multinomial`, `np.random.binomial`,
  `np.random.beta`, `np.random.rand`, and the `DirGamma` concentration
  resampler) is modelled by one fixed realization of its draws, an `Oracles`
  record passed to the embedded functions.  Distributional facts about a
  draw become the formula for the parameters handed to the oracle, plus
  hypotheses on the oracle's output (e.g. gamma variates are positive,
  Dirichlet draws lie on the simplex).
* Fallible code (the `assert` in the left-to-right counting step, reads of
  the never-initialized `self.fullA` attribute, and calls of
  `np.random.geometric` with a success parameter outside its domain
  `0 < p ≤ 1`) is modelled with `Except PyErr`.
-/

set_option maxHeartbeats 1000000

/-- Python exceptions that the embedded code paths can raise. -/
inductive PyErr where
  | assertionError : PyErr
  | attributeError : PyErr
  | valueError : PyErr
deriving DecidableEq, Repr

deriving instance DecidableEq for Except

/-- `okAnd e P` holds when `e` is a success whose payload satisfies `P`. -/
def okAnd {e1 a1 : Type} (e : Except e1 a1) (P : a1 → Prop) : Prop :=
  match e with
  | Except.ok x => P x
  | Except.error _ => False

instance {e1 a1 : Type} (e : Except e1 a1) (P : a1 → Prop) [DecidablePred P] :
    Decidable (okAnd e P) :=
  match e with
  | Except.ok x => inferInstanceAs (Decidable (P x))
  | Except.error _ => inferInstanceAs (Decidable False)

/-- An `L`-by-`L` matrix, indexed `[row][column]`. -/
abbrev Mat (L : ℕ) (α : Type) : Type := Fin L → Fin L → α

/-- One realization of all random draws a resample sweep can consume.
Each field models one numpy/scipy sampling primitive (or, for the last two
fields, the opaque `DirGamma` concentration resampler of
`basic.distributions`, out of scope per the spec):
* `unif i j k`  — the `k`-th `np.random.rand` variate used for cell `(i,j)`
  in `_get_m`;
* `dirichlet p` — the `np.random.dirichlet(p)` draw;
* `gammaM S`    — the entrywise `stats.gamma.rvs(S)` draw for shape matrix `S`;
* `geom i p k`  — the `k`-th `np.random.geometric(p)` variate drawn for row `i`;
* `multinom i n p` — the `np.random.multinomial(n, p)` draw for row `i`;
* `binom i n p` — the `np.random.binomial(n, p)` draw for diagonal cell `i`;
* `betaDraw a b` — the `np.random.beta(a, b)` draw;
* `concAUpdate counts w c` — concentration of `alpha_obj` after
  `alpha_obj.resample(counts, weighted_cols=w, niter=10)` starting from `c`;
* `concGUpdate m c` — concentration of `gamma_obj` after
  `gamma_obj.resample(m, niter=10)` starting from `c`. -/
structure Oracles (L : ℕ) where
  unif : Fin L → Fin L → ℕ → ℚ
  dirichlet : (Fin L → ℚ) → Fin L → ℚ
  gammaM : Mat L ℚ → Mat L ℚ
  geom : Fin L → ℚ → ℕ → ℕ
  multinom : Fin L → ℕ → (Fin L → ℚ) → Fin L → ℕ
  binom : Fin L → ℕ → ℚ → ℕ
  betaDraw : ℚ → ℚ → ℚ
  concAUpdate : Mat L ℕ → (Fin L → ℚ) → ℚ → ℚ
  concGUpdate : Mat L ℕ → ℚ → ℚ

/-- `HDPHMMTransitions._count_transitions`: for every sequence, every adjacent
pair `(states[idx], states[idx+1])` increments `trans_counts`; the source's
`len(states) >= 2` guard is subsumed because `s.zip s.tail` is empty for
shorter sequences. -/
def count_transitions {L : ℕ} (states_list : List (List (Fin L))) : Mat L ℕ :=
  fun i j => (states_list.map (fun s => (s.zip s.tail).count (i, j))).sum

/-- `HDPHMMTransitions._get_m`: if `trans_counts` is not all zero, each cell
`(i,j)` with count `n` is the number of indices `k < n` whose uniform variate
falls below `alpha*beta[j] / (k + alpha*beta[j])`; with all-zero counts the
loop is skipped and `m` stays the zero matrix. -/
def get_m {L : ℕ} (o : Oracles L) (alpha : ℚ) (beta : Fin L → ℚ)
    (trans_counts : Mat L ℕ) : Mat L ℕ :=
  if ∀ i j, trans_counts i j = 0 then fun _ _ => 0
  else fun i j =>
    ((Finset.range (trans_counts i j)).filter
      (fun k => o.unif i j k < alpha * beta j / ((k : ℚ) + alpha * beta j))).card

/-- The Dirichlet parameter of `HDPHMMTransitions._resample_beta`:
`self.gamma / self.state_dim + m.sum(0) + 1e-2` (`m.sum(0)` is the vector of
column sums of `m`). -/
def dirParam {L : ℕ} (gamma : ℚ) (m : Mat L ℕ) : Fin L → ℚ :=
  fun j => gamma / (L : ℚ) + (∑ i, (m i j : ℚ)) + 1e-2

/-- `HDPHMMTransitions._resample_beta`. -/
def resample_beta {L : ℕ} (o : Oracles L) (gamma : ℚ) (m : Mat L ℕ) :
    Fin L → ℚ :=
  o.dirichlet (dirParam gamma m)

/-- The Gamma shape matrix of `HDPHMMTransitions._resample_A`:
`self.alpha * self.beta + trans_counts + 1e-2`. -/
def gammaShape {L : ℕ} (alpha : ℚ) (beta : Fin L → ℚ) (data : Mat L ℚ) :
    Mat L ℚ :=
  fun i j => alpha * beta j + data i j + 1e-2

/-- `self.A /= self.A.sum(1)[:,na]`: divide every row by its sum. -/
def rowNormalize {L : ℕ} (M : Mat L ℚ) : Mat L ℚ :=
  fun i j => M i j / ∑ k, M i k

/-- `HDPHMMTransitions._resample_A`: draw entrywise Gamma variates with shape
`alpha*beta + data + 1e-2` and normalize each row. -/
def resample_A {L : ℕ} (o : Oracles L) (alpha : ℚ) (beta : Fin L → ℚ)
    (data : Mat L ℚ) : Mat L ℚ :=
  rowNormalize (o.gammaM (gammaShape alpha beta data))

/-- `np.triu`: keep the upper triangle (including the diagonal), zero below. -/
def triu {L : ℕ} (M : Mat L ℚ) : Mat L ℚ :=
  fun i j => if i ≤ j then M i j else 0

/-- `LTRHDPHMMTransitions._resample_A`: run the base Gamma resampling, keep
the unconstrained result as `fullA`, then truncate to the upper triangle and
renormalize each row; returns `(fullA, A)`. -/
def ltr_resample_A {L : ℕ} (o : Oracles L) (alpha : ℚ) (beta : Fin L → ℚ)
    (data : Mat L ℚ) : Mat L ℚ × Mat L ℚ :=
  let A := resample_A o alpha beta data
  (A, rowNormalize (triu A))

/-- `HDPHSMMTransitions._resample_A`: run the base Gamma resampling, keep the
result as `fullA`, zero the diagonal (`self.A.flat[::self.A.shape[0]+1] = 0`)
and renormalize each row; returns `(fullA, A)`. -/
def hsmm_resample_A {L : ℕ} (o : Oracles L) (alpha : ℚ) (beta : Fin L → ℚ)
    (data : Mat L ℚ) : Mat L ℚ × Mat L ℚ :=
  let A := resample_A o alpha beta data
  (A, rowNormalize (fun i j => if i = j then 0 else A i j))

/-- `data + np.diag(kappa * np.ones(data.shape[0]))`: add `kappa` to every
diagonal entry. -/
def addKappaDiag {L : ℕ} (kappa : ℚ) (data : Mat L ℚ) : Mat L ℚ :=
  fun i j => data i j + if i = j then kappa else 0

/-- `StickyHDPHMMTransitions._resample_A`: add `kappa` to the diagonal of the
counts, then delegate to the base Gamma resampling. -/
def sticky_resample_A {L : ℕ} (o : Oracles L) (alpha : ℚ) (beta : Fin L → ℚ)
    (kappa : ℚ) (data : Mat L ℚ) : Mat L ℚ :=
  resample_A o alpha beta (addKappaDiag kappa data)

/-- `StickyLTRHDPHMMTransitions._resample_A`.  The MRO of
`StickyLTRHDPHMMTransitions(LTRHDPHMMTransitions, StickyHDPHMMTransitions)`
is `[StickyLTR, LTR, Sticky, HDPHMM]`: the explicit override adds `kappa` to
the diagonal and calls `super()._resample_A`, which is `LTR._resample_A`;
`LTR`'s own `super()._resample_A` call resolves (on a `StickyLTR` instance)
to `Sticky._resample_A`, which adds `kappa` to the diagonal a second time
before delegating to the base Gamma resampling; finally `LTR` stores `fullA`
and triangularizes.  Returns `(fullA, A)`. -/
def stickyLTR_resample_A {L : ℕ} (o : Oracles L) (alpha : ℚ) (beta : Fin L → ℚ)
    (kappa : ℚ) (data : Mat L ℚ) : Mat L ℚ × Mat L ℚ :=
  let aug := addKappaDiag kappa data
  let A := sticky_resample_A o alpha beta kappa aug
  (A, rowNormalize (triu A))

/-- The Gamma shape that the CLAIM (and §4.7 of the spec) says the
sticky-left-to-right `_resample_A` feeds to the Gamma sampler:
`alpha*beta[j] + counts[i][j] + kappa*[i=j] + 1e-2`, i.e. `kappa` added
exactly once on the diagonal.  Spec-side definition, for comparison with the
source-side `gammaShape`/`addKappaDiag` composition. -/
def claimedStickyShape {L : ℕ} (alpha : ℚ) (beta : Fin L → ℚ) (kappa : ℚ)
    (data : Mat L ℚ) : Mat L ℚ :=
  fun i j => alpha * beta j + data i j + (if i = j then kappa else 0) + 1e-2

/-- Modelled from the spec: `util.general.rle` is not under `src/`; per §1
it is the opaque transform `sequence_of_states -> sequence_of_(state,
run_length)` that "collapses consecutive repeated states into a sequence of
distinct 'no-repeat' states". -/
def rle {α : Type} [DecidableEq α] : List α → List (α × ℕ)
  | [] => []
  | a :: rest =>
    match rle rest with
    | [] => [(a, 1)]
    | (b, n) :: t => if a = b then (b, n + 1) :: t else (a, 1) :: (b, n) :: t

/-- `map(operator.itemgetter(0), map(rle, stateseqs))` applied to one
sequence: the run-length-collapsed label sequence. -/
def collapse {α : Type} [DecidableEq α] (s : List α) : List α :=
  (rle s).map Prod.fst

/-- The counting stage of `HDPHSMMTransitions.resample` (lines 141-144):
run-length-collapse every caller sequence, then count transitions among the
collapsed sequences. -/
def hsmm_count {L : ℕ} (stateseqs : List (List (Fin L))) : Mat L ℕ :=
  count_transitions (stateseqs.map collapse)

/-- `HDPHSMMTransitions._augment_data`: if the counts are not all zero, each
state `i` with row sum `n = froms i > 0` adds to its diagonal entry the sum
of `n` geometric variates with success parameter `1 - fullA[i][i]`; rows with
`n = 0` contribute `0`.  A geometric success parameter outside the primitive's
domain `0 < p ≤ 1` (e.g. `fullA[i][i] = 1` with `n > 0`) is an error. -/
def hsmm_augment {L : ℕ} (o : Oracles L) (fullA : Mat L ℚ)
    (trans_counts : Mat L ℕ) : Except PyErr (Mat L ℕ) :=
  if 0 < ∑ i, ∑ j, trans_counts i j then
    if ∀ i : Fin L, (∑ j, trans_counts i j) = 0 ∨
        (0 < 1 - fullA i i ∧ 1 - fullA i i ≤ 1) then
      Except.ok (fun i j => trans_counts i j +
        if i = j ∧ 0 < ∑ k, trans_counts i k then
          ∑ k ∈ Finset.range (∑ k2, trans_counts i k2), o.geom i (1 - fullA i i) k
        else 0)
    else Except.error PyErr.valueError
  else Except.ok trans_counts

/-- `np.tril(trans_counts, -1)` is all zero: no strictly-lower (backward)
transition was counted. -/
def strictLowerZero {L : ℕ} (tc : Mat L ℕ) : Prop :=
  ∀ i j : Fin L, j < i → tc i j = 0

instance {L : ℕ} (tc : Mat L ℕ) : Decidable (strictLowerZero tc) := by
  unfold strictLowerZero; infer_instance

/-- `LTRHDPHMMTransitions._count_transitions`: count the base transitions,
assert the strictly-lower triangle is zero, then read `self.fullA`
(`attributeError` if it was never assigned) and, per row `i`, overwrite the
backward columns `trans_counts[i, :i]` with a multinomial split of a total
obtained by summing `totalfrom[i]` geometric variates whose success parameter
is `totalweight[i] = np.triu(fullA).sum(1)[i]`; the multinomial probabilities
are `fullA[i, :i] / fullA[i, :i].sum()`.  Geometric success parameters must
lie in the primitive's domain `0 < p ≤ 1`. -/
def ltr_count_transitions {L : ℕ} (o : Oracles L) (fullA : Option (Mat L ℚ))
    (states_list : List (List (Fin L))) : Except PyErr (Mat L ℕ) :=
  let tc := count_transitions states_list
  if strictLowerZero tc then
    match fullA with
    | none => Except.error PyErr.attributeError
    | some F =>
      if ∀ i : Fin L, 0 < ∑ j, triu F i j ∧ (∑ j, triu F i j) ≤ 1 then
        Except.ok (fun i j =>
          if j < i then
            o.multinom i
              (∑ k ∈ Finset.range (∑ j2, tc i j2),
                o.geom i (∑ j2, triu F i j2) k)
              (fun j2 => if j2 < i then F i j2 / (∑ k, if k < i then F i k else 0)
                else 0) j
          else tc i j)
      else Except.error PyErr.valueError
  else Except.error PyErr.assertionError

/-- `StickyHDPHMMTransitions._resample_beta`, the `newm` computation: if `m`
is not all zero, every nonzero diagonal entry `m[i][i]` is replaced by a
binomial draw with `n = m[i][i]` and
`p = beta[i]*alpha / (beta[i]*alpha + kappa)`; all other entries pass
through. -/
def sticky_newm {L : ℕ} (o : Oracles L) (alpha kappa : ℚ) (beta : Fin L → ℚ)
    (m : Mat L ℕ) : Mat L ℕ :=
  if 0 < ∑ i, ∑ j, m i j then
    fun i j =>
      if i = j ∧ m i i ≠ 0 then
        o.binom i (m i i) (beta i * alpha / (beta i * alpha + kappa))
      else m i j
  else m

/-- `LTRHDPHMMTransitions.resample` (inherited `HDPHMMTransitions.resample`
body with the LTR overrides): count (may raise), read `self.beta`
(`attributeError` if never assigned), compute `m`, resample `beta`, resample
`A`.  Returns `(beta, fullA, A)`. -/
def ltr_resample {L : ℕ} (o : Oracles L) (alpha gamma : ℚ)
    (beta : Option (Fin L → ℚ)) (fullA : Option (Mat L ℚ))
    (states_list : List (List (Fin L))) :
    Except PyErr ((Fin L → ℚ) × Mat L ℚ × Mat L ℚ) :=
  match ltr_count_transitions o fullA states_list with
  | Except.error e => Except.error e
  | Except.ok tc =>
    match beta with
    | none => Except.error PyErr.attributeError
    | some b =>
      let m := get_m o alpha b tc
      let b2 := resample_beta o gamma m
      let p := ltr_resample_A o alpha b2 (fun i j => (tc i j : ℚ))
      Except.ok (b2, p.1, p.2)

/-- `StickyLTRHDPHMMTransitions.resample`: as `ltr_resample` but with the
sticky `_resample_beta` (`newm`) and the doubly-augmented
`stickyLTR_resample_A`. -/
def stickyLtr_resample {L : ℕ} (o : Oracles L) (alpha gamma kappa : ℚ)
    (beta : Option (Fin L → ℚ)) (fullA : Option (Mat L ℚ))
    (states_list : List (List (Fin L))) :
    Except PyErr ((Fin L → ℚ) × Mat L ℚ × Mat L ℚ) :=
  match ltr_count_transitions o fullA states_list with
  | Except.error e => Except.error e
  | Except.ok tc =>
    match beta with
    | none => Except.error PyErr.attributeError
    | some b =>
      let m := get_m o alpha b tc
      let newm := sticky_newm o alpha kappa b m
      let b2 := resample_beta o gamma newm
      let p := stickyLTR_resample_A o alpha b2 kappa (fun i j => (tc i j : ℚ))
      Except.ok (b2, p.1, p.2)

/-- `HDPHMMTransitions.__init__` specialized to a left-to-right instance:
store `A` and `beta` when both are supplied (`fullA` is never assigned by the
constructor), otherwise trigger `self.resample()` on an empty sequence list.
Returns `(beta, A, fullA)`. -/
def ltr_init {L : ℕ} (o : Oracles L) (alpha gamma : ℚ)
    (beta : Option (Fin L → ℚ)) (A : Option (Mat L ℚ)) :
    Except PyErr ((Fin L → ℚ) × Mat L ℚ × Option (Mat L ℚ)) :=
  match A, beta with
  | some A0, some b => Except.ok (b, A0, none)
  | _, _ =>
    match ltr_resample o alpha gamma beta none [] with
    | Except.error e => Except.error e
    | Except.ok r => Except.ok (r.1, r.2.2, some r.2.1)

/-- The mutable state of a `StickyHDPHMMTransitionsConcResampling` instance.
`alphaObjConc`/`gammaObjConc` are the `concentration` scalars of the
`DirGamma` objects (`alpha_obj` really holds the `alpha+kappa` total mass,
per the source comment). -/
structure StickyConcState (L : ℕ) where
  rho_a_0 : ℚ
  rho_b_0 : ℚ
  rho : ℚ
  alphaObjConc : ℚ
  gammaObjConc : ℚ
  alpha : ℚ
  gamma : ℚ
  kappa : ℚ
  beta : Fin L → ℚ
  A : Mat L ℚ
  m : Mat L ℕ
  newm : Mat L ℕ
  trans_counts : Mat L ℕ

/-- `StickyHDPHMMTransitions.resample` (the delegated transition-model
update): count, compute `m`, split the diagonal into `newm`, resample `beta`
from `newm`, resample `A` from the kappa-augmented counts. -/
def sticky_resample {L : ℕ} (o : Oracles L) (s : StickyConcState L)
    (states_list : List (List (Fin L))) : StickyConcState L :=
  let tc := count_transitions states_list
  let m := get_m o s.alpha s.beta tc
  let newm := sticky_newm o s.alpha s.kappa s.beta m
  let b2 := resample_beta o s.gamma newm
  let A2 := sticky_resample_A o s.alpha b2 s.kappa (fun i j => (tc i j : ℚ))
  { s with trans_counts := tc, m := m, newm := newm, beta := b2, A := A2 }

/-- `ConcentrationResampling.resample`: resample `alpha_obj` from the
transition counts (weighted by `beta`) and set
`self.alpha = alpha_obj.concentration * state_dim`; likewise `gamma_obj`
from `m` and `self.gamma = gamma_obj.concentration * state_dim`. -/
def concentration_resample {L : ℕ} (o : Oracles L) (s : StickyConcState L) :
    StickyConcState L :=
  let ca := o.concAUpdate s.trans_counts s.beta s.alphaObjConc
  let cg := o.concGUpdate s.m s.gammaObjConc
  { s with alphaObjConc := ca, alpha := ca * (L : ℚ),
           gammaObjConc := cg, gamma := cg * (L : ℚ) }

/-- `StickyHDPHMMTransitionsConcResampling.resample`: delegate to the sticky
transition-model update, then to `ConcentrationResampling.resample`, then
redraw `rho` from `Beta(rho_a_0 + (m-newm).sum(), rho_b_0 + newm.sum())` and
set `kappa = rho * alpha_obj.concentration * state_dim`.  (`alpha` is NOT
recomputed here: it keeps the value `alpha_obj.concentration * state_dim`
set by `ConcentrationResampling.resample`.) -/
def stickyConc_resample {L : ℕ} (o : Oracles L) (s : StickyConcState L)
    (states_list : List (List (Fin L))) : StickyConcState L :=
  let s1 := sticky_resample o s states_list
  let s2 := concentration_resample o s1
  let rho2 := o.betaDraw
    (s2.rho_a_0 + ((∑ i, ∑ j, (s2.m i j : ℚ)) - ∑ i, ∑ j, (s2.newm i j : ℚ)))
    (s2.rho_b_0 + ∑ i, ∑ j, (s2.newm i j : ℚ))
  { s2 with rho := rho2, kappa := rho2 * s2.alphaObjConc * (L : ℚ) }

/-! ## Concrete oracles and inputs used by witnesses and counterexamples -/

/-- A concrete realization of all draws at `L = 1`. -/
def oW1 : Oracles 1 where
  unif := fun _ _ _ => 1/2
  dirichlet := fun _ _ => 1
  gammaM := fun _ _ _ => 1
  geom := fun _ _ _ => 1
  multinom := fun _ t _ _ => t
  binom := fun _ n _ => n
  betaDraw := fun _ _ => 1/2
  concAUpdate := fun _ _ _ => 1
  concGUpdate := fun _ _ => 1

/-- A concrete realization of all draws at `L = 2`; the multinomial puts all
its mass on column 0. -/
def oW2 : Oracles 2 where
  unif := fun _ _ _ => 1/2
  dirichlet := fun _ _ => 1/2
  gammaM := fun _ _ _ => 1
  geom := fun _ _ _ => 1
  multinom := fun _ t _ j => if j = 0 then t else 0
  binom := fun _ n _ => n
  betaDraw := fun _ _ => 1/2
  concAUpdate := fun _ _ _ => 1
  concGUpdate := fun _ _ => 1

/-! ## C7 — table counts `m` -/

/-- C7: `_get_m` computes each cell `(i,j)` with count `n = trans_counts[i][j]`
as the number of successes among `n` Bernoulli trials whose `k`-th trial
succeeds exactly when its uniform variate is below
`alpha*beta[j] / (k + alpha*beta[j])`; a cell with `n = 0` gets `0`, and with
all-zero input counts (e.g. the empty sequence list) `m` is the zero
matrix. -/
theorem C7_get_m_formula {L : ℕ} (o : Oracles L) (alpha : ℚ)
    (beta : Fin L → ℚ) (tc : Mat L ℕ) :
    (∀ i j, get_m o alpha beta tc i j =
      ((Finset.range (tc i j)).filter
        (fun k => o.unif i j k < alpha * beta j / ((k : ℚ) + alpha * beta j))).card) ∧
    (∀ i j, tc i j = 0 → get_m o alpha beta tc i j = 0) ∧
    (get_m o alpha beta (count_transitions ([] : List (List (Fin L)))) =
      fun _ _ => 0) := by
  have hform : ∀ i j, get_m o alpha beta tc i j =
      ((Finset.range (tc i j)).filter
        (fun k => o.unif i j k < alpha * beta j / ((k : ℚ) + alpha * beta j))).card := by
    intro i j
    unfold get_m
    split
    · rename_i h
      rw [h i j]
      simp
    · rfl
  refine ⟨hform, ?_, ?_⟩
  · intro i j h
    rw [hform i j, h]
    simp
  · unfold get_m
    rw [if_pos]
    intro i j
    rfl

/-! ## C8 — Dirichlet parameter of `_resample_beta` -/

/-- C8: the base beta resampling passes to the Dirichlet primitive exactly the
parameter vector whose `j`-th entry is `gamma/L` plus the `j`-th column sum of
`m` plus the smoothing constant `1e-2 = 1/100`. -/
theorem C8_beta_param {L : ℕ} (o : Oracles L) (gamma : ℚ) (m : Mat L ℕ) :
    resample_beta o gamma m = o.dirichlet (dirParam gamma m) ∧
    (∀ j, dirParam gamma m j = gamma / (L : ℚ) + (∑ i, (m i j : ℚ)) + 1 / 100) := by
  refine ⟨rfl, ?_⟩
  intro j
  show gamma / (L : ℚ) + (∑ i, (m i j : ℚ)) + 1e-2 =
    gamma / (L : ℚ) + (∑ i, (m i j : ℚ)) + 1 / 100
  norm_num

/-! ## C4 — sticky-left-to-right `_resample_A` -/

/-- C4 (code bug): on the sticky left-to-right class, A-resampling feeds the
Gamma sampler the shape `alpha*beta[j] + counts[i][j] + 2*kappa*[i=j] + 1e-2`
— `kappa` is added to the diagonal TWICE (once by `StickyLTR`'s own override
and once more when `LTR`'s `super()` call resolves to `Sticky._resample_A`
under the MRO `[StickyLTR, LTR, Sticky, HDPHMM]`) — and only then stores
`fullA` and triangularizes.  The claim's shape, with `kappa` added once
(`claimedStickyShape`), differs from the shape actually fed already at
`L = 1`, `alpha = 1`, `beta = [1]`, `kappa = 1`, zero counts:
`3 + 1/100 ≠ 2 + 1/100`. -/
theorem C4_stickyLTR_double_kappa :
    (∀ (L : ℕ) (o : Oracles L) (alpha : ℚ) (beta : Fin L → ℚ) (kappa : ℚ)
      (data : Mat L ℚ),
      stickyLTR_resample_A o alpha beta kappa data =
        (let A := rowNormalize (o.gammaM (fun i j =>
            alpha * beta j + data i j + (if i = j then 2 * kappa else 0) + 1e-2))
         (A, rowNormalize (triu A)))) ∧
    @gammaShape 1 1 (fun _ => 1)
        (addKappaDiag 1 (addKappaDiag 1 (fun _ _ => (0 : ℚ)))) 0 0 ≠
      @claimedStickyShape 1 1 (fun _ => 1) 1 (fun _ _ => (0 : ℚ)) 0 0 := by
  constructor
  · intro L o alpha beta kappa data
    have hsh : gammaShape alpha beta (addKappaDiag kappa (addKappaDiag kappa data)) =
        (fun i j => alpha * beta j + data i j + (if i = j then 2 * kappa else 0) + 1e-2) := by
      funext i j
      unfold gammaShape addKappaDiag
      by_cases h : i = j <;> simp [h] <;> ring
    show (resample_A o alpha beta (addKappaDiag kappa (addKappaDiag kappa data)),
        rowNormalize (triu (resample_A o alpha beta
          (addKappaDiag kappa (addKappaDiag kappa data))))) =
      (rowNormalize (o.gammaM (fun i j =>
          alpha * beta j + data i j + (if i = j then 2 * kappa else 0) + 1e-2)),
        rowNormalize (triu (rowNormalize (o.gammaM (fun i j =>
          alpha * beta j + data i j + (if i = j then 2 * kappa else 0) + 1e-2)))))
    unfold resample_A
    rw [hsh]
  · with_unfolding_all decide

/-! ## C1 — sticky concentration-coupled resample -/

/-- A concrete `StickyConcState` at `L = 1`. -/
def sC1 : StickyConcState 1 where
  rho_a_0 := 1
  rho_b_0 := 1
  rho := 1/2
  alphaObjConc := 1
  gammaObjConc := 1
  alpha := 1/2
  gamma := 1
  kappa := 1/2
  beta := fun _ => 1
  A := fun _ _ => 1
  m := fun _ _ => 0
  newm := fun _ _ => 0
  trans_counts := fun _ _ => 0

/-- C1 (code bug): after `StickyHDPHMMTransitionsConcResampling.resample`,
`rho` is indeed drawn from `Beta(rho_a_0 + (m-newm).sum(), rho_b_0 +
newm.sum())` with the `m` and `newm` of the same sweep, and `kappa` is
recomputed as `rho * concentration * L`; but `alpha` is NOT recomputed from
the fresh `rho` — it keeps the value `concentration * L` assigned by
`ConcentrationResampling.resample`.  Consequently (last two conjuncts,
evaluated at a concrete realization with `rho = 1/2`, `concentration = 1`,
`L = 1`) `alpha + kappa ≠ concentration * L` and
`alpha / (alpha + kappa) ≠ 1 - rho`, refuting the claimed recomputation of
`alpha = (1-rho)*concentration*L`. -/
theorem C1_alpha_not_recomputed :
    (∀ (L : ℕ) (o : Oracles L) (s : StickyConcState L)
      (states_list : List (List (Fin L))),
      (stickyConc_resample o s states_list).rho =
        o.betaDraw
          (s.rho_a_0 + ((∑ i, ∑ j, ((sticky_resample o s states_list).m i j : ℚ)) -
            ∑ i, ∑ j, ((sticky_resample o s states_list).newm i j : ℚ)))
          (s.rho_b_0 + ∑ i, ∑ j, ((sticky_resample o s states_list).newm i j : ℚ)) ∧
      (stickyConc_resample o s states_list).kappa =
        (stickyConc_resample o s states_list).rho *
          (stickyConc_resample o s states_list).alphaObjConc * (L : ℚ) ∧
      (stickyConc_resample o s states_list).alpha =
        (stickyConc_resample o s states_list).alphaObjConc * (L : ℚ)) ∧
    ((stickyConc_resample oW1 sC1 []).alpha + (stickyConc_resample oW1 sC1 []).kappa ≠
      (stickyConc_resample oW1 sC1 []).alphaObjConc * ((1 : ℕ) : ℚ) ∧
     (stickyConc_resample oW1 sC1 []).alpha /
        ((stickyConc_resample oW1 sC1 []).alpha + (stickyConc_resample oW1 sC1 []).kappa) ≠
      1 - (stickyConc_resample oW1 sC1 []).rho) := by
  constructor
  · intro L o s states_list
    refine ⟨rfl, rfl, rfl⟩
  · constructor <;> with_unfolding_all decide

/-! ## C2 — the semi-Markov counting stage -/

lemma rle_ne_nil {α : Type} [DecidableEq α] (a : α) (t : List α) :
    rle (a :: t) ≠ [] := by
  simp only [rle]
  cases h2 : rle t with
  | nil => simp
  | cons p u =>
    obtain ⟨b, n⟩ := p
    by_cases hab : a = b <;> simp [hab]

lemma rle_eq_nil_iff {α : Type} [DecidableEq α] (s : List α) :
    rle s = [] ↔ s = [] := by
  cases s with
  | nil => simp [rle]
  | cons a t => simp [rle_ne_nil]

lemma collapse_chain {α : Type} [DecidableEq α] (s : List α) :
    List.Chain' (· ≠ ·) (collapse s) := by
  induction s with
  | nil => simp [collapse, rle]
  | cons a t ih =>
    unfold collapse at ih ⊢
    simp only [rle]
    cases h2 : rle t with
    | nil => simp
    | cons p u =>
      obtain ⟨b, n⟩ := p
      rw [h2] at ih
      by_cases hab : a = b
      · subst hab
        simpa using ih
      · simp only [if_neg hab, List.map_cons]
        exact List.chain'_cons.mpr ⟨hab, by simpa using ih⟩

lemma collapse_eq_self {α : Type} [DecidableEq α] (s : List α)
    (h : List.Chain' (· ≠ ·) s) : collapse s = s := by
  induction s with
  | nil => rfl
  | cons a t ih =>
    have ht := ih h.tail
    unfold collapse at ht ⊢
    simp only [rle]
    cases h2 : rle t with
    | nil =>
      have h3 : t = [] := (rle_eq_nil_iff t).mp h2
      subst h3
      rfl
    | cons p u =>
      obtain ⟨b, n⟩ := p
      rw [h2] at ht
      simp only [List.map_cons] at ht
      have hab : a ≠ b := by
        rw [← ht] at h
        exact (List.chain'_cons.mp h).1
      simp only [if_neg hab, List.map_cons]
      rw [ht]

lemma ne_of_mem_zip_tail {α : Type} (s : List α) (h : List.Chain' (· ≠ ·) s)
    (p : α × α) (hp : p ∈ s.zip s.tail) : p.1 ≠ p.2 := by
  induction s with
  | nil => simp at hp
  | cons a t ih =>
    cases t with
    | nil => simp at hp
    | cons b u =>
      simp only [List.tail_cons, List.zip_cons_cons] at hp
      rcases List.mem_cons.mp hp with h1 | h1
      · subst h1
        exact (List.chain'_cons.mp h).1
      · exact ih (List.chain'_cons.mp h).2 h1

lemma count_transitions_diag_zero {L : ℕ} (seqs : List (List (Fin L)))
    (h : ∀ s ∈ seqs, List.Chain' (· ≠ ·) s) (i : Fin L) :
    count_transitions seqs i i = 0 := by
  unfold count_transitions
  apply List.sum_eq_zero
  intro x hx
  obtain ⟨s, hs, rfl⟩ := List.mem_map.mp hx
  refine List.count_eq_zero.mpr ?_
  intro hmem
  exact ne_of_mem_zip_tail s (h s hs) (i, i) hmem rfl

/-- C2 counterexample: the semi-Markov counting stage does NOT count the
caller-supplied sequences "exactly as given" — `HDPHSMMTransitions.resample`
run-length-collapses them itself (line 142, `map(rle, stateseqs)`).  On the
sequence `[0, 0]` the core counts no `0 → 0` transition, while counting the
sequence as given yields one. -/
theorem C2_counterexample :
    hsmm_count ([[0, 0]] : List (List (Fin 1))) 0 0 = 0 ∧
    count_transitions ([[0, 0]] : List (List (Fin 1))) 0 0 = 1 := by
  constructor <;> rfl

/-- C2 amended: the semi-Markov `resample` applies the run-length collapse
itself (via the external `rle`) to every caller sequence and counts
transitions among the collapsed sequences; on input already satisfying the
documented invariant (no two consecutive equal labels) the collapse is the
identity, so the counts then coincide with counting the given sequences; and
the collapsed counts never contain a diagonal (self-transition) entry,
whatever the caller supplies. -/
theorem C2_core_collapses {L : ℕ} (stateseqs : List (List (Fin L)))
    (s : List (Fin L)) (h : List.Chain' (· ≠ ·) s) :
    hsmm_count stateseqs = count_transitions (stateseqs.map collapse) ∧
    collapse s = s ∧
    (∀ i : Fin L, hsmm_count stateseqs i i = 0) := by
  refine ⟨rfl, collapse_eq_self s h, ?_⟩
  intro i
  unfold hsmm_count
  refine count_transitions_diag_zero _ ?_ i
  intro s2 hs2
  obtain ⟨s3, _, rfl⟩ := List.mem_map.mp hs2
  exact collapse_chain s3

/-- Witness for `C2_core_collapses` at `L = 2`, `stateseqs = [[0, 0, 1]]`,
`s = [0, 1]`. -/
theorem C2_witness :
    List.Chain' (· ≠ ·) ([0, 1] : List (Fin 2)) ∧
    (hsmm_count ([[0, 0, 1]] : List (List (Fin 2))) =
        count_transitions (([[0, 0, 1]] : List (List (Fin 2))).map collapse) ∧
      collapse ([0, 1] : List (Fin 2)) = [0, 1] ∧
      (∀ i : Fin 2, hsmm_count ([[0, 0, 1]] : List (List (Fin 2))) i i = 0)) :=
  ⟨List.chain'_cons.mpr ⟨by decide, List.chain'_singleton 1⟩,
    C2_core_collapses [[0, 0, 1]] [0, 1]
      (List.chain'_cons.mpr ⟨by decide, List.chain'_singleton 1⟩)⟩

/-! ## C5 — semi-Markov geometric augmentation -/

/-- A `fullA` whose state-0 self-transition probability is exactly 1. -/
def FWbad : Mat 2 ℚ :=
  fun i j => if i = 0 then (if j = 0 then 1 else 0) else 1/2

/-- Counts with a single transition out of state 0 (`f_0 = 1`). -/
def tcW : Mat 2 ℕ := fun i j => if i = 0 ∧ j = 1 then 1 else 0

/-- C5 counterexample: with `pi_00 = 1` and `f_0 = 1 > 0` the augmentation
step must call the geometric primitive with success parameter
`1 - pi_00 = 0`, outside its domain `0 < p ≤ 1` — an error, not the `0`
contribution the claim asserts. -/
theorem C5_counterexample :
    hsmm_augment oW2 FWbad tcW = Except.error PyErr.valueError := by
  with_unfolding_all decide

/-- C5 amended: for every state `i` with row sum `f_i > 0` and `pi_ii`
admissible (`0 < 1 - pi_ii ≤ 1`), the diagonal contribution is the sum of
`f_i` geometric variates with success parameter `1 - pi_ii`, and a state with
`f_i = 0` contributes `0` (for any `pi_ii`); but when some state has
`pi_ii = 1` together with `f_i > 0` (and the counts are not all zero), the
call fails with the geometric primitive's domain error instead of
contributing `0`. -/
theorem C5_augment_formula {L : ℕ} (o : Oracles L) (F : Mat L ℚ)
    (tc : Mat L ℕ) :
    ((∀ i : Fin L, (∑ j, tc i j) = 0 ∨ (0 < 1 - F i i ∧ 1 - F i i ≤ 1)) →
      hsmm_augment o F tc = Except.ok (fun i j => tc i j +
        if i = j ∧ 0 < ∑ k, tc i k then
          ∑ k ∈ Finset.range (∑ k2, tc i k2), o.geom i (1 - F i i) k
        else 0)) ∧
    ((0 < ∑ i, ∑ j, tc i j) → ∀ i0 : Fin L, F i0 i0 = 1 → (∑ j, tc i0 j) ≠ 0 →
      hsmm_augment o F tc = Except.error PyErr.valueError) := by
  constructor
  · intro hdom
    unfold hsmm_augment
    by_cases hpos : 0 < ∑ i, ∑ j, tc i j
    · rw [if_pos hpos, if_pos hdom]
    · rw [if_neg hpos]
      have htot : (∑ i, ∑ j, tc i j) = 0 := Nat.eq_zero_of_not_pos hpos
      have hrow : ∀ i : Fin L, (∑ j, tc i j) = 0 := by
        intro i
        exact (Finset.sum_eq_zero_iff.mp htot) i (Finset.mem_univ i)
      congr 1
      funext i j
      rw [hrow i]
      simp
  · intro hpos i0 hF hn
    unfold hsmm_augment
    rw [if_pos hpos, if_neg]
    intro hall
    rcases hall i0 with h | ⟨h1, _⟩
    · exact hn h
    · rw [hF] at h1
      norm_num at h1

/-- Witness for `C5_augment_formula` at `L = 2`, `F ≡ 1/4`, one transition
out of state 0. -/
def FWok : Mat 2 ℚ := fun _ _ => 1/4

theorem C5_witness :
    (∀ i : Fin 2, (∑ j, tcW i j) = 0 ∨ (0 < 1 - FWok i i ∧ 1 - FWok i i ≤ 1)) ∧
    hsmm_augment oW2 FWok tcW = Except.ok (fun i j => tcW i j +
      if i = j ∧ 0 < ∑ k, tcW i k then
        ∑ k ∈ Finset.range (∑ k2, tcW i k2), oW2.geom i (1 - FWok i i) k
      else 0) :=
  ⟨by with_unfolding_all decide,
    (C5_augment_formula oW2 FWok tcW).1 (by with_unfolding_all decide)⟩

/-! ## C3 — left-to-right counting augmentation -/

/-- A row-stochastic `fullA` at `L = 2` with upper-triangular row sums
`w_0 = 1`, `w_1 = 3/4`. -/
def FW3 : Mat 2 ℚ :=
  fun i j => if i = 0 then 1/2 else (if j = 0 then 1/4 else 3/4)

/-- C3 counterexample: the augmentation total of row 1 is written into the
backward columns `trans_counts[1, :1]` (with multinomial probabilities from
the strictly-lower part `fullA[1, :1]`), not into the forward columns as the
claim states: on input `[[1, 1]]` the counting step succeeds and the
strictly-lower cell `(1,0)` of the returned counts is `1`, while the claimed
forward-column split would have left every strictly-lower cell at `0`. -/
theorem C3_counterexample :
    okAnd (ltr_count_transitions oW2 (some FW3) ([[1, 1]] : List (List (Fin 2))))
      (fun C => C 1 0 = 1 ∧ C 1 0 ≠ 0) := by
  with_unfolding_all decide

/-- C3 amended: for each row `i` the augmentation total is indeed the sum of
`f_i = row-sum of the base counts` geometric draws with success probability
`w_i = sum of the upper-triangular part of fullA row i`; but that total is
split across the BACKWARD columns `0..i-1` of row `i` by a multinomial draw
whose probabilities are proportional to the strictly-lower part
`fullA[i, :i]` (normalized by its own sum), the forward columns keeping the
base counts. -/
theorem C3_geometric_multinomial {L : ℕ} (o : Oracles L) (F : Mat L ℚ)
    (seqs : List (List (Fin L)))
    (hlow : strictLowerZero (count_transitions seqs))
    (hdom : ∀ i : Fin L, 0 < ∑ j, triu F i j ∧ (∑ j, triu F i j) ≤ 1) :
    ltr_count_transitions o (some F) seqs = Except.ok (fun i j =>
      if j < i then
        o.multinom i
          (∑ k ∈ Finset.range (∑ j2, count_transitions seqs i j2),
            o.geom i (∑ j2, triu F i j2) k)
          (fun j2 => if j2 < i then F i j2 / (∑ k, if k < i then F i k else 0)
            else 0) j
      else count_transitions seqs i j) ∧
    (∀ i : Fin L, (∑ j2, triu F i j2) = ∑ j2, if i ≤ j2 then F i j2 else 0) := by
  constructor
  · simp only [ltr_count_transitions]
    rw [if_pos hlow, if_pos hdom]
  · intro i
    rfl

/-- Witness for `C3_geometric_multinomial` at `oW2`, `FW3`, `[[1, 1]]`. -/
theorem C3_witness :
    (strictLowerZero (count_transitions ([[1, 1]] : List (List (Fin 2)))) ∧
      (∀ i : Fin 2, 0 < ∑ j, triu FW3 i j ∧ (∑ j, triu FW3 i j) ≤ 1)) ∧
    ltr_count_transitions oW2 (some FW3) ([[1, 1]] : List (List (Fin 2))) =
      Except.ok (fun i j =>
        if j < i then
          oW2.multinom i
            (∑ k ∈ Finset.range (∑ j2, count_transitions ([[1, 1]] : List (List (Fin 2))) i j2),
              oW2.geom i (∑ j2, triu FW3 i j2) k)
            (fun j2 => if j2 < i then FW3 i j2 / (∑ k, if k < i then FW3 i k else 0)
              else 0) j
        else count_transitions ([[1, 1]] : List (List (Fin 2))) i j) :=
  ⟨⟨by decide, by with_unfolding_all decide⟩,
    (C3_geometric_multinomial oW2 FW3 [[1, 1]] (by decide)
      (by with_unfolding_all decide)).1⟩

/-! ## C9 — backward transitions hit the assertion -/

/-- C9: whenever some input sequence contains an adjacent backward pair
(`p.2 < p.1`), the left-to-right counting step fails with the structural
assertion — before reading `fullA`, before the geometric/multinomial
augmentation and before any resampling — and so do the full `resample`
pipelines of both left-to-right classes, whatever `beta` and `fullA` hold. -/
theorem C9_backward_assertion {L : ℕ} (o : Oracles L) (alpha gamma : ℚ)
    (beta : Option (Fin L → ℚ)) (fullA : Option (Mat L ℚ))
    (seqs : List (List (Fin L)))
    (h : ∃ s ∈ seqs, ∃ p ∈ s.zip s.tail, p.2 < p.1) :
    ltr_count_transitions o fullA seqs = Except.error PyErr.assertionError ∧
    ltr_resample o alpha gamma beta fullA seqs = Except.error PyErr.assertionError ∧
    (∀ kappa, stickyLtr_resample o alpha gamma kappa beta fullA seqs =
      Except.error PyErr.assertionError) := by
  obtain ⟨s, hs, p, hp, hlt⟩ := h
  have hcount : 0 < count_transitions seqs p.1 p.2 := by
    unfold count_transitions
    have h1 : 0 < (s.zip s.tail).count (p.1, p.2) := by
      rw [List.count_pos_iff]
      simpa using hp
    have h2 : (s.zip s.tail).count (p.1, p.2) ≤
        (seqs.map (fun s2 => (s2.zip s2.tail).count (p.1, p.2))).sum := by
      refine List.single_le_sum (fun x _ => Nat.zero_le x) _ ?_
      exact List.mem_map.mpr ⟨s, hs, rfl⟩
    exact lt_of_lt_of_le h1 h2
  have hnot : ¬ strictLowerZero (count_transitions seqs) := by
    intro hsz
    rw [hsz p.1 p.2 hlt] at hcount
    exact Nat.lt_irrefl 0 hcount
  have hcnt : ltr_count_transitions o fullA seqs = Except.error PyErr.assertionError := by
    simp only [ltr_count_transitions]
    rw [if_neg hnot]
  refine ⟨hcnt, ?_, ?_⟩
  · unfold ltr_resample
    rw [hcnt]
  · intro kappa
    unfold stickyLtr_resample
    rw [hcnt]

/-- Witness for `C9_backward_assertion`: the single sequence `[1, 0]`
contains the backward pair `1 → 0`. -/
theorem C9_witness :
    (∃ s ∈ ([[1, 0]] : List (List (Fin 2))), ∃ p ∈ s.zip s.tail, p.2 < p.1) ∧
    ltr_count_transitions oW2 (some FW3) ([[1, 0]] : List (List (Fin 2))) =
      Except.error PyErr.assertionError :=
  ⟨⟨[1, 0], by decide, (1, 0), by decide, by decide⟩,
    (C9_backward_assertion oW2 1 1 none (some FW3) [[1, 0]]
      ⟨[1, 0], by decide, (1, 0), by decide, by decide⟩).1⟩

/-! ## C10 — `fullA` is read before it is ever assigned -/

/-- C10: `fullA` is only ever assigned inside `_resample_A`, which runs after
the counting step that reads it; hence, with `fullA` unset, any first
`resample` of either left-to-right class on backward-free input fails with
the attribute error, and so does the constructor-triggered resample when `A`
or `beta` is omitted (the constructor itself never assigns `fullA`). -/
theorem C10_fullA_uninitialized {L : ℕ} (o : Oracles L) (alpha gamma : ℚ)
    (beta : Option (Fin L → ℚ)) :
    (∀ seqs : List (List (Fin L)), strictLowerZero (count_transitions seqs) →
      ltr_resample o alpha gamma beta none seqs =
        Except.error PyErr.attributeError) ∧
    (∀ kappa (seqs : List (List (Fin L))),
      strictLowerZero (count_transitions seqs) →
      stickyLtr_resample o alpha gamma kappa beta none seqs =
        Except.error PyErr.attributeError) ∧
    (∀ A0 : Option (Mat L ℚ), A0 = none ∨ beta = none →
      ltr_init o alpha gamma beta A0 = Except.error PyErr.attributeError) := by
  have hc : ∀ seqs : List (List (Fin L)), strictLowerZero (count_transitions seqs) →
      ltr_count_transitions o (none : Option (Mat L ℚ)) seqs =
        Except.error PyErr.attributeError := by
    intro seqs hsz
    simp only [ltr_count_transitions]
    rw [if_pos hsz]
  have hr : ∀ seqs : List (List (Fin L)), strictLowerZero (count_transitions seqs) →
      ltr_resample o alpha gamma beta none seqs =
        Except.error PyErr.attributeError := by
    intro seqs hsz
    unfold ltr_resample
    rw [hc seqs hsz]
  have hempty : strictLowerZero (count_transitions ([] : List (List (Fin L)))) := by
    intro i j _
    rfl
  refine ⟨hr, ?_, ?_⟩
  · intro kappa seqs hsz
    unfold stickyLtr_resample
    rw [hc seqs hsz]
  · intro A0 hcase
    cases A0 with
    | none =>
      show (match ltr_resample o alpha gamma beta (none : Option (Mat L ℚ)) [] with
        | Except.error e => Except.error e
        | Except.ok r => Except.ok (r.1, r.2.2, some r.2.1)) =
          Except.error PyErr.attributeError
      rw [hr [] hempty]
    | some A1 =>
      rcases hcase with h1 | h1
      · exact absurd h1 (by simp)
      · subst h1
        show (match ltr_resample o alpha gamma none (none : Option (Mat L ℚ)) [] with
          | Except.error e => Except.error e
          | Except.ok r => Except.ok (r.1, r.2.2, some r.2.1)) =
            Except.error PyErr.attributeError
        rw [hr [] hempty]

/-- Witness for `C10_fullA_uninitialized` at `L = 2`. -/
theorem C10_witness :
    strictLowerZero (count_transitions ([[0, 1]] : List (List (Fin 2)))) ∧
    ltr_resample oW2 1 1 (some (fun _ => 1/2)) none
        ([[0, 1]] : List (List (Fin 2))) = Except.error PyErr.attributeError ∧
    ltr_init oW2 1 1 (some (fun _ => 1/2)) none =
      Except.error PyErr.attributeError :=
  ⟨by decide,
    (C10_fullA_uninitialized oW2 1 1 (some (fun _ => 1/2))).1 [[0, 1]] (by decide),
    (C10_fullA_uninitialized oW2 1 1 (some (fun _ => 1/2))).2.2 none (Or.inl rfl)⟩

/-! ## C6 — stochasticity invariants of the resampled matrices -/

lemma normalized_row_facts {L : ℕ} (M : Mat L ℚ) (i : Fin L)
    (h0 : ∀ j, 0 ≤ M i j) (hex : ∃ j, 0 < M i j) :
    (∑ j, rowNormalize M i j) = 1 ∧ ∀ j, 0 ≤ rowNormalize M i j := by
  have hsum : 0 < ∑ k, M i k :=
    Finset.sum_pos' (fun k _ => h0 k)
      (hex.imp (fun j hj => ⟨Finset.mem_univ j, hj⟩))
  constructor
  · unfold rowNormalize
    rw [← Finset.sum_div]
    exact div_self (ne_of_gt hsum)
  · intro j
    exact div_nonneg (h0 j) (le_of_lt hsum)

lemma gammaShape_pos {L : ℕ} (alpha : ℚ) (beta : Fin L → ℚ) (data : Mat L ℚ)
    (ha : 0 ≤ alpha) (hb : ∀ j, 0 ≤ beta j) (hd : ∀ i j, 0 ≤ data i j) :
    ∀ i j, 0 < gammaShape alpha beta data i j := by
  intro i j
  unfold gammaShape
  have h1 : 0 ≤ alpha * beta j := mul_nonneg ha (hb j)
  have h2 : (0 : ℚ) < 1e-2 := by norm_num
  linarith [hd i j]

lemma addKappaDiag_nonneg {L : ℕ} (kappa : ℚ) (data : Mat L ℚ)
    (hd : ∀ i j, 0 ≤ data i j) (hk : 0 ≤ kappa) :
    ∀ i j, 0 ≤ addKappaDiag kappa data i j := by
  intro i j
  unfold addKappaDiag
  by_cases h : i = j
  · rw [if_pos h]
    linarith [hd i j]
  · rw [if_neg h]
    linarith [hd i j]

lemma resample_A_pos {L : ℕ} (o : Oracles L) (alpha : ℚ) (beta : Fin L → ℚ)
    (data : Mat L ℚ)
    (hg : ∀ S : Mat L ℚ, (∀ i j, 0 < S i j) → ∀ i j, 0 < o.gammaM S i j)
    (ha : 0 ≤ alpha) (hb : ∀ j, 0 ≤ beta j) (hd : ∀ i j, 0 ≤ data i j) :
    ∀ i j, 0 < resample_A o alpha beta data i j := by
  intro i j
  unfold resample_A
  have hpos := hg _ (gammaShape_pos alpha beta data ha hb hd)
  unfold rowNormalize
  exact div_pos (hpos i j)
    (Finset.sum_pos (fun k _ => hpos i k) ⟨i, Finset.mem_univ i⟩)

lemma triu_row_facts {L : ℕ} (A : Mat L ℚ) (i : Fin L)
    (hA : ∀ i j, 0 < A i j) :
    (∑ j, rowNormalize (triu A) i j) = 1 ∧ ∀ j, 0 ≤ rowNormalize (triu A) i j := by
  refine normalized_row_facts (triu A) i ?_ ?_
  · intro j
    unfold triu
    by_cases h : i ≤ j
    · rw [if_pos h]
      exact le_of_lt (hA i j)
    · rw [if_neg h]
  · refine ⟨i, ?_⟩
    unfold triu
    rw [if_pos (le_refl i)]
    exact hA i i

/-- C6 counterexample: at truncation level `L = 1` the semi-Markov
`_resample_A` zeroes the (only) diagonal entry and then divides the zero row
by its zero sum, so the resulting row of `A` sums to `0`, not `1` (in the
source, `np.seterr(invalid='raise')` makes the `0/0` raise
`FloatingPointError`; either way the row cannot sum to 1). -/
theorem C6_counterexample :
    (∑ j, (hsmm_resample_A oW1 1 (fun _ => 1) (fun _ _ => 0)).2 0 j) = 0 ∧
    (∑ j, (hsmm_resample_A oW1 1 (fun _ => 1) (fun _ _ => 0)).2 0 j) ≠ 1 := by
  constructor
  · with_unfolding_all decide
  · with_unfolding_all decide

/-- C6 amended: for any realization with positive Gamma variates and
simplex-valued Dirichlet draws, and any nonnegative inputs: the resampled
`beta` of every variant sums to 1 with nonnegative entries; the resampled `A`
of the base, sticky, left-to-right and sticky-left-to-right variants is
row-stochastic; the semi-Markov `A` has an exactly-zero diagonal for every
`L`, and is row-stochastic provided `L ≥ 2` (at `L = 1` the zero-diagonal
renormalization divides zero by zero — see `C6_counterexample`).  Shape
preservation is enforced by the embedding's types (`Mat L ℚ` in, `Mat L ℚ`
out). -/
theorem C6_stochastic_after_resample {L : ℕ} (o : Oracles L)
    (alpha gamma kappa : ℚ) (beta : Fin L → ℚ) (data : Mat L ℚ) (m : Mat L ℕ)
    (hg : ∀ S : Mat L ℚ, (∀ i j, 0 < S i j) → ∀ i j, 0 < o.gammaM S i j)
    (hdir : ∀ p : Fin L → ℚ, (∑ j, o.dirichlet p j) = 1 ∧ ∀ j, 0 ≤ o.dirichlet p j)
    (ha : 0 ≤ alpha) (hb : ∀ j, 0 ≤ beta j)
    (hd : ∀ i j, 0 ≤ data i j) (hk : 0 ≤ kappa) :
    ((∑ j, resample_beta o gamma m j) = 1 ∧ ∀ j, 0 ≤ resample_beta o gamma m j) ∧
    (∀ i, (∑ j, resample_A o alpha beta data i j) = 1 ∧
      ∀ j, 0 ≤ resample_A o alpha beta data i j) ∧
    (∀ i, (∑ j, sticky_resample_A o alpha beta kappa data i j) = 1 ∧
      ∀ j, 0 ≤ sticky_resample_A o alpha beta kappa data i j) ∧
    (∀ i, (∑ j, (ltr_resample_A o alpha beta data).2 i j) = 1 ∧
      ∀ j, 0 ≤ (ltr_resample_A o alpha beta data).2 i j) ∧
    (∀ i, (∑ j, (stickyLTR_resample_A o alpha beta kappa data).2 i j) = 1 ∧
      ∀ j, 0 ≤ (stickyLTR_resample_A o alpha beta kappa data).2 i j) ∧
    (∀ i, (hsmm_resample_A o alpha beta data).2 i i = 0) ∧
    (2 ≤ L → ∀ i, (∑ j, (hsmm_resample_A o alpha beta data).2 i j) = 1 ∧
      ∀ j, 0 ≤ (hsmm_resample_A o alpha beta data).2 i j) := by
  have hApos := resample_A_pos o alpha beta data hg ha hb hd
  have hAug : ∀ i j, 0 ≤ addKappaDiag kappa data i j :=
    addKappaDiag_nonneg kappa data hd hk
  have hAug2 : ∀ i j, 0 ≤ addKappaDiag kappa (addKappaDiag kappa data) i j :=
    addKappaDiag_nonneg kappa (addKappaDiag kappa data) hAug hk
  have hSpos := resample_A_pos o alpha beta (addKappaDiag kappa data) hg ha hb hAug
  have hS2pos := resample_A_pos o alpha beta
    (addKappaDiag kappa (addKappaDiag kappa data)) hg ha hb hAug2
  refine ⟨⟨(hdir (dirParam gamma m)).1, (hdir (dirParam gamma m)).2⟩, ?_, ?_, ?_, ?_, ?_, ?_⟩
  · intro i
    exact normalized_row_facts _ i
      (fun j => le_of_lt (hg _ (gammaShape_pos alpha beta data ha hb hd) i j))
      ⟨i, hg _ (gammaShape_pos alpha beta data ha hb hd) i i⟩
  · intro i
    exact normalized_row_facts _ i
      (fun j => le_of_lt (hg _ (gammaShape_pos alpha beta _ ha hb hAug) i j))
      ⟨i, hg _ (gammaShape_pos alpha beta _ ha hb hAug) i i⟩
  · intro i
    exact triu_row_facts (resample_A o alpha beta data) i hApos
  · intro i
    exact triu_row_facts (resample_A o alpha beta
      (addKappaDiag kappa (addKappaDiag kappa data))) i hS2pos
  · intro i
    show (if i = i then (0 : ℚ) else resample_A o alpha beta data i i) /
      (∑ k, if i = k then (0 : ℚ) else resample_A o alpha beta data i k) = 0
    rw [if_pos rfl]
    exact zero_div _
  · intro hL i
    have hnt : Nontrivial (Fin L) := Fin.nontrivial_iff_two_le.mpr hL
    obtain ⟨j0, hj0⟩ := exists_ne i
    have hfacts := normalized_row_facts
      (fun i2 j2 => if i2 = j2 then (0 : ℚ) else resample_A o alpha beta data i2 j2) i
      (by
        intro j
        by_cases h : i = j
        · simp only [if_pos h]
          exact le_refl 0
        · simp only [if_neg h]
          exact le_of_lt (hApos i j))
      ⟨j0, by
        have hne : ¬ i = j0 := fun h => hj0 (Eq.symm h)
        simp only [if_neg hne]
        exact hApos i j0⟩
    exact hfacts

/-- Witness for `C6_stochastic_after_resample` at `L = 2` with the `oW2`
draws, `alpha = 1`, `beta ≡ 1/2`, zero counts, `kappa = 1`. -/
theorem C6_witness :
    ((∀ S : Mat 2 ℚ, (∀ i j, 0 < S i j) → ∀ i j, 0 < oW2.gammaM S i j) ∧
      (∀ p : Fin 2 → ℚ, (∑ j, oW2.dirichlet p j) = 1 ∧ ∀ j, 0 ≤ oW2.dirichlet p j)) ∧
    (((∑ j, resample_beta oW2 1 (fun _ _ => 0) j) = 1 ∧
        ∀ j, 0 ≤ resample_beta oW2 1 (fun _ _ => 0) j) ∧
      (∀ i, (∑ j, resample_A oW2 1 (fun _ => 1/2) (fun _ _ => 0) i j) = 1 ∧
        ∀ j, 0 ≤ resample_A oW2 1 (fun _ => 1/2) (fun _ _ => 0) i j) ∧
      (∀ i, (∑ j, sticky_resample_A oW2 1 (fun _ => 1/2) 1 (fun _ _ => 0) i j) = 1 ∧
        ∀ j, 0 ≤ sticky_resample_A oW2 1 (fun _ => 1/2) 1 (fun _ _ => 0) i j) ∧
      (∀ i, (∑ j, (ltr_resample_A oW2 1 (fun _ => 1/2) (fun _ _ => 0)).2 i j) = 1 ∧
        ∀ j, 0 ≤ (ltr_resample_A oW2 1 (fun _ => 1/2) (fun _ _ => 0)).2 i j) ∧
      (∀ i, (∑ j, (stickyLTR_resample_A oW2 1 (fun _ => 1/2) 1 (fun _ _ => 0)).2 i j) = 1 ∧
        ∀ j, 0 ≤ (stickyLTR_resample_A oW2 1 (fun _ => 1/2) 1 (fun _ _ => 0)).2 i j) ∧
      (∀ i, (hsmm_resample_A oW2 1 (fun _ => 1/2) (fun _ _ => 0)).2 i i = 0) ∧
      (2 ≤ 2 → ∀ i, (∑ j, (hsmm_resample_A oW2 1 (fun _ => 1/2) (fun _ _ => 0)).2 i j) = 1 ∧
        ∀ j, 0 ≤ (hsmm_resample_A oW2 1 (fun _ => 1/2) (fun _ _ => 0)).2 i j)) :=
  ⟨⟨fun S hS i j => one_pos,
    fun p => ⟨by norm_num [oW2, Fin.sum_univ_two], fun j => by norm_num [oW2]⟩⟩,
    C6_stochastic_after_resample oW2 1 1 1 (fun _ => 1/2) (fun _ _ => 0) (fun _ _ => 0)
      (fun S hS i j => one_pos)
      (fun p => ⟨by norm_num [oW2, Fin.sum_univ_two], fun j => by norm_num [oW2]⟩)
      (by norm_num) (fun j => by norm_num) (fun i j => le_refl 0) (by norm_num)⟩
